import Mathlib

/-!
Verification of the placeholder-substitution engine, artifact producer and
retention sweeper of the EMS Python backend (`api.py`), via a shallow
embedding.  Texts are modelled as `List Char`; Python dicts (which iterate
in insertion order) are modelled as association lists; the filesystem state
relevant to the retention sweep is modelled explicitly.
-/

/-- Convert a string literal to the `List Char` representation used throughout. -/
def chars (s : String) : List Char := s.toList

/-- Python substring test `pat in s` (empty pattern is contained in every string). -/
def isSubstrOf (pat : List Char) : List Char → Bool
  | [] => pat.isEmpty
  | c :: s => pat.isPrefixOf (c :: s) || isSubstrOf pat s

/-- Fuel-indexed worker for `pyReplace`; the fuel is an upper bound on the
number of characters still to be scanned, so with fuel `s.length` the
`0, c :: s` branch is unreachable. -/
def pyReplaceFuel (pat rep : List Char) : Nat → List Char → List Char
  | _, [] => if pat = [] then rep else []
  | 0, s => s
  | fuel + 1, c :: s =>
    if pat = [] then rep ++ c :: pyReplaceFuel pat rep fuel s
    else if pat.isPrefixOf (c :: s) then
      rep ++ pyReplaceFuel pat rep fuel (List.drop (pat.length - 1) s)
    else c :: pyReplaceFuel pat rep fuel s

/-- Python `s.replace(pat, rep)`: replaces every leftmost non-overlapping
occurrence of `pat` in `s` by `rep` (for empty `pat`, Python inserts `rep`
at every position, which the `pat = []` branches reproduce). -/
def pyReplace (s pat rep : List Char) : List Char :=
  pyReplaceFuel pat rep s.length s

/-- A run of styled text inside a paragraph (python-docx `Run`); only its text matters here. -/
abbrev Run := List Char

/-- A paragraph is the ordered list of its runs (python-docx `Paragraph`). -/
abbrev Para := List Run

/-- A table cell holds a list of paragraphs. -/
abbrev Cell := List Para

/-- A table row holds a list of cells. -/
abbrev Row := List Cell

/-- A table holds a list of rows. -/
abbrev Table := List Row

/-- The structural document tree: body paragraphs plus tables (python-docx `Document`). -/
structure DocM where
  paragraphs : List Para
  tables : List Table
deriving DecidableEq

/-- python-docx `paragraph.text`: the concatenation of the texts of its runs. -/
def paraText : Para → List Char
  | [] => []
  | r :: rs => r ++ paraText rs

/-- A field map: placeholder name (or, for `replace_placeholders`, the full
key string) to substitution value, in dict insertion order. -/
abbrev FieldMap := List (List Char × List Char)

/-- `f"\x7b\x7b{key}\x7d\x7d"` of `generate_document`: wraps a key name in double braces. -/
def placeholderOf (k : List Char) : List Char :=
  '{' :: '{' :: (k ++ ['}', '}'])

/-- The inner key loop of `generate_document` (api.py lines 125-131) acting on
one run's text: for each key in dict order, if `\x7b\x7bKEY\x7d\x7d` occurs in the
*current* text of the run, replace every occurrence by the value. -/
def runLocalRun (data : FieldMap) (t : Run) : Run :=
  data.foldl
    (fun t kv =>
      if isSubstrOf (placeholderOf kv.1) t then pyReplace t (placeholderOf kv.1) kv.2
      else t)
    t

/-- The body-paragraph loop of `generate_document` (api.py lines 118-131):
each run is rewritten independently by `runLocalRun` (the initial scan of
`p.text` at lines 119-123 only logs and has no observable effect). -/
def processParagraphRunLocal (data : FieldMap) (p : Para) : Para :=
  p.map (runLocalRun data)

/-- The table-cell paragraph loop of `generate_document` (api.py lines
133-144): for each key in dict order, if the placeholder occurs in the
current concatenated paragraph text, rewrite each run containing it. -/
def processParagraphTable (data : FieldMap) (p : Para) : Para :=
  data.foldl
    (fun p kv =>
      if isSubstrOf (placeholderOf kv.1) (paraText p) then
        p.map (fun r =>
          if isSubstrOf (placeholderOf kv.1) r then pyReplace r (placeholderOf kv.1) kv.2
          else r)
      else p)
    p

/-- The whole substitution phase of `generate_document` (api.py lines 118-144):
run-local rewriting of body paragraphs, then the table-branch rewriting of
every paragraph of every table cell. -/
def generateDocumentSub (data : FieldMap) (doc : DocM) : DocM :=
  { paragraphs := doc.paragraphs.map (processParagraphRunLocal data),
    tables := doc.tables.map (fun tbl =>
      tbl.map (fun row => row.map (fun cell =>
        cell.map (processParagraphTable data)))) }

/-- The key loop of `replace_placeholders` (api.py lines 180-183): keys are
used verbatim (no brace wrapping) against the evolving text. -/
def applyReplacements (repl : FieldMap) (t : List Char) : List Char :=
  repl.foldl
    (fun t kv => if isSubstrOf kv.1 t then pyReplace t kv.1 kv.2 else t)
    t

/-- One paragraph of `replace_placeholders` (api.py lines 178-187 and
192-201): compute the replaced concatenated text; if unchanged, leave the
paragraph alone; otherwise blank every run and write the replaced text into
the first run — `none` models the `IndexError` raised by `para.runs[0]`
when a changed paragraph has no runs. -/
def collapsePara (repl : FieldMap) (p : Para) : Option Para :=
  let text := applyReplacements repl (paraText p)
  if text = paraText p then some p
  else
    match p with
    | [] => none
    | _ :: rest => some (text :: rest.map (fun _ => []))

/-- Sequential `Option`-valued map: the first failure aborts, modelling an
uncaught Python exception inside a loop. -/
def mapMOpt (f : α → Option β) : List α → Option (List β)
  | [] => some []
  | a :: l =>
    match f a with
    | none => none
    | some b =>
      match mapMOpt f l with
      | none => none
      | some bs => some (b :: bs)

/-- `replace_placeholders` (api.py lines 176-202): every body paragraph and
every paragraph of every table cell is collapsed by `collapsePara`;
`none` models an `IndexError` escaping the function. -/
def replacePlaceholders (repl : FieldMap) (doc : DocM) : Option DocM :=
  match mapMOpt (collapsePara repl) doc.paragraphs with
  | none => none
  | some ps =>
    match mapMOpt (fun tbl => mapMOpt (fun row => mapMOpt (mapMOpt (collapsePara repl)) row) tbl) doc.tables with
    | none => none
    | some ts => some { paragraphs := ps, tables := ts }

/-- The replacement dict built by `generate_certificate` (api.py line 207):
keys already wrapped in double braces. -/
def certificateReplacements (name position duration : List Char) : FieldMap :=
  [(chars "{{NAME}}", name), (chars "{{POSITION}}", position), (chars "{{DURATION}}", duration)]

/-- Result shape of a successful `generate_document` call: the rendered tree,
whether the secondary (PDF) artifact was produced, and the warning field of
the returned dict (api.py lines 146-169). -/
structure GenOutput where
  rendered : DocM
  pdfProduced : Bool
  warning : Option String
deriving DecidableEq

/-- `generate_document` (api.py lines 96-173) with the external collaborators
made explicit: `template` is `none` when the template file does not exist
(the code then raises `HTTPException`, modelled as `Except.error`), and
`convOk` is the outcome of the `docx2pdf.convert` call.  A conversion
failure is caught (lines 151-162): the call still succeeds, with no PDF and
the warning string of line 161. -/
def generate_document (template : Option DocM) (data : FieldMap) (convOk : Bool) :
    Except String GenOutput :=
  match template with
  | none => Except.error "Template file not found"
  | some doc =>
    let rendered := generateDocumentSub data doc
    if convOk then Except.ok { rendered := rendered, pdfProduced := true, warning := none }
    else
      Except.ok { rendered := rendered, pdfProduced := false,
                  warning := some "PDF conversion failed, only DOCX is available" }

/-- `generate_certificate` (api.py lines 204-223): substitution via
`replace_placeholders` (an `IndexError` there escapes), then `convert` with
*no* surrounding try/except — a conversion failure propagates to the caller
as an error. -/
def generate_certificate (template : DocM) (name position duration : List Char)
    (convOk : Bool) : Except String DocM :=
  match replacePlaceholders (certificateReplacements name position duration) template with
  | none => Except.error "IndexError: list index out of range"
  | some doc =>
    if convOk then Except.ok doc
    else Except.error "PDF conversion failed"

/-- A file of the artifact directory as seen by the retention sweep:
`ctime` is the creation timestamp used for ordering, `present` is the
outcome of the `os.path.isfile` check at deletion time (`false` models a
file that disappeared between listing and deletion), and `removable` is
whether `os.remove` succeeds (`false` models e.g. a locked file). -/
structure FsFile where
  name : Nat
  ctime : Nat
  present : Bool
  removable : Bool
deriving DecidableEq

/-- The deletion loop of `delete_old_files` (api.py lines 232-235) on the
files beyond the watermark, with the surrounding try/except of lines
227-238: returns the files actually removed and whether an exception was
caught.  A non-present file is skipped by the `isfile` guard and the loop
continues; a present but non-removable file raises from `os.remove`, which
the *outer* handler catches — so nothing after it is processed. -/
def sweepLoop : List FsFile → List FsFile × Bool
  | [] => ([], false)
  | f :: rest =>
    if f.present then
      if f.removable then
        let r := sweepLoop rest
        (f :: r.1, r.2)
      else ([], true)
    else sweepLoop rest

/-- The ordering of `files.sort(key=os.path.getctime, reverse=True)`:
newest first. -/
def ctimeGe (a b : FsFile) : Prop := b.ctime ≤ a.ctime

instance : DecidableRel ctimeGe := fun a b => Nat.decLe b.ctime a.ctime

instance : IsTotal FsFile ctimeGe := ⟨fun a b => Nat.le_total b.ctime a.ctime⟩

instance : IsTrans FsFile ctimeGe := ⟨fun _ _ _ hab hbc => Nat.le_trans hbc hab⟩

/-- `delete_old_files` (api.py lines 226-238): list the directory, sort by
creation time newest first (a stable descending sort), and delete
everything beyond the first 40 files; returns the deleted files and
whether a deletion error was caught (and logged).  The function itself
never propagates an error. -/
def delete_old_files (files : List FsFile) : List FsFile × Bool :=
  sweepLoop (List.drop 40 (files.insertionSort ctimeGe))

theorem isSubstrOf_correct {pat s : List Char} : isSubstrOf pat s = true ↔ pat <:+: s := by
  induction s with
  | nil =>
    simp only [isSubstrOf, List.isEmpty_iff]
    exact ⟨fun h => h ▸ List.nil_infix, fun h => List.eq_nil_of_infix_nil h⟩
  | cons c s ih =>
    simp only [isSubstrOf, Bool.or_eq_true, List.isPrefixOf_iff_prefix, ih,
      List.infix_cons_iff]

theorem isSubstrOf_nil_of_ne {pat : List Char} (h : pat ≠ []) : isSubstrOf pat [] = false := by
  simp [isSubstrOf, h]

theorem mem_infix_paraText {r : Run} {p : Para} (h : r ∈ p) : r <:+: paraText p := by
  induction p with
  | nil => cases h
  | cons a p ih =>
    rcases List.mem_cons.mp h with h | h
    · exact h ▸ ⟨[], paraText p, rfl⟩
    · exact (ih h).trans ⟨a, [], by simp [paraText]⟩

theorem isSubstrOf_paraText_of_mem {pat : List Char} {r : Run} {p : Para}
    (hr : r ∈ p) (h : isSubstrOf pat r = true) : isSubstrOf pat (paraText p) = true :=
  isSubstrOf_correct.mpr ((isSubstrOf_correct.mp h).trans (mem_infix_paraText hr))

theorem isSubstrOf_run_eq_false {pat : List Char} {r : Run} {p : Para}
    (hr : r ∈ p) (h : isSubstrOf pat (paraText p) = false) : isSubstrOf pat r = false := by
  cases hpat : isSubstrOf pat r with
  | false => rfl
  | true => rw [isSubstrOf_paraText_of_mem hr hpat] at h; cases h

theorem runLocalRun_id {data : FieldMap} {t : Run}
    (h : ∀ kv ∈ data, isSubstrOf (placeholderOf kv.1) t = false) :
    runLocalRun data t = t := by
  induction data with
  | nil => rfl
  | cons kv rest ih =>
    have h1 := h kv (List.mem_cons_self kv rest)
    show List.foldl _ _ _ = t
    rw [List.foldl_cons]
    simp only [h1, Bool.false_eq_true, if_false]
    exact ih fun kv hkv => h kv (List.mem_cons_of_mem _ hkv)

theorem applyReplacements_id {repl : FieldMap} {t : List Char}
    (h : ∀ kv ∈ repl, isSubstrOf kv.1 t = false) :
    applyReplacements repl t = t := by
  induction repl with
  | nil => rfl
  | cons kv rest ih =>
    have h1 := h kv (List.mem_cons_self kv rest)
    show List.foldl _ _ _ = t
    rw [List.foldl_cons]
    simp only [h1, Bool.false_eq_true, if_false]
    exact ih fun kv hkv => h kv (List.mem_cons_of_mem _ hkv)

theorem processParagraphTable_id {data : FieldMap} {p : Para}
    (h : ∀ kv ∈ data, ∀ r ∈ p, isSubstrOf (placeholderOf kv.1) r = false) :
    processParagraphTable data p = p := by
  induction data with
  | nil => rfl
  | cons kv rest ih =>
    have hstep :
        (if isSubstrOf (placeholderOf kv.1) (paraText p) then
          p.map (fun r =>
            if isSubstrOf (placeholderOf kv.1) r then pyReplace r (placeholderOf kv.1) kv.2
            else r)
        else p) = p := by
      have hmap : p.map (fun r =>
          if isSubstrOf (placeholderOf kv.1) r then pyReplace r (placeholderOf kv.1) kv.2
          else r) = p := by
        have h2 : ∀ r ∈ p,
            (if isSubstrOf (placeholderOf kv.1) r then pyReplace r (placeholderOf kv.1) kv.2
             else r) = id r :=
          fun r hr => by simp [h kv (List.mem_cons_self kv rest) r hr]
        rw [List.map_congr_left h2, List.map_id]
      by_cases hc : isSubstrOf (placeholderOf kv.1) (paraText p) = true
      · simp [hc, hmap]
      · simp [hc]
    show List.foldl _ _ _ = p
    rw [List.foldl_cons]
    simp only [hstep]
    exact ih fun kv hkv => h kv (List.mem_cons_of_mem _ hkv)

theorem processParagraphRunLocal_id {data : FieldMap} {p : Para}
    (h : ∀ kv ∈ data, isSubstrOf (placeholderOf kv.1) (paraText p) = false) :
    processParagraphRunLocal data p = p := by
  unfold processParagraphRunLocal
  have h2 : ∀ r ∈ p, runLocalRun data r = id r :=
    fun r hr => runLocalRun_id fun kv hkv => isSubstrOf_run_eq_false hr (h kv hkv)
  rw [List.map_congr_left h2, List.map_id]

theorem collapsePara_id {repl : FieldMap} {p : Para}
    (h : ∀ kv ∈ repl, isSubstrOf kv.1 (paraText p) = false) :
    collapsePara repl p = some p := by
  unfold collapsePara
  simp [applyReplacements_id h]

/-- The per-paragraph frame property of `replace_placeholders`: an untouched
concatenated text leaves the paragraph exactly as it was; a changed text
collapses the runs, the first carrying the substituted text, the rest
emptied, so the new concatenated text is the substituted string. -/
def paraRel (repl : FieldMap) (p q : Para) : Prop :=
  (applyReplacements repl (paraText p) = paraText p → q = p) ∧
  (applyReplacements repl (paraText p) ≠ paraText p →
    ∃ r rest, p = r :: rest ∧
      q = applyReplacements repl (paraText p) :: rest.map (fun _ => []) ∧
      paraText q = applyReplacements repl (paraText p))

theorem paraText_map_nil (rest : List Run) :
    paraText (rest.map (fun _ => ([] : List Char))) = [] := by
  induction rest with
  | nil => rfl
  | cons a l ih => simpa [paraText] using ih

theorem paraText_replicate_nil (n : Nat) :
    paraText (List.replicate n ([] : List Char)) = [] := by
  induction n with
  | zero => rfl
  | succ n ih => simpa [paraText, List.replicate] using ih

theorem collapsePara_paraRel {repl : FieldMap} {p q : Para}
    (h : collapsePara repl p = some q) : paraRel repl p q := by
  unfold collapsePara at h
  by_cases hc : applyReplacements repl (paraText p) = paraText p
  · rw [if_pos hc] at h
    exact ⟨fun _ => (Option.some_inj.mp h).symm, fun hne => absurd hc hne⟩
  · rw [if_neg hc] at h
    constructor
    · exact fun heq => absurd heq hc
    · intro _
      cases p with
      | nil => cases h
      | cons r rest =>
        refine ⟨r, rest, rfl, (Option.some_inj.mp h).symm, ?_⟩
        rw [← Option.some_inj.mp h]
        show paraText (applyReplacements repl (paraText (r :: rest)) :: rest.map (fun _ => [])) = _
        simp [paraText, paraText_map_nil, paraText_replicate_nil]

theorem mapMOpt_forall₂ {f : α → Option β} {l : List α} {l₂ : List β}
    (h : mapMOpt f l = some l₂) : List.Forall₂ (fun a b => f a = some b) l l₂ := by
  induction l generalizing l₂ with
  | nil =>
    cases h
    exact List.Forall₂.nil
  | cons a l ih =>
    unfold mapMOpt at h
    cases hfa : f a with
    | none => rw [hfa] at h; cases h
    | some b =>
      rw [hfa] at h
      cases hrest : mapMOpt f l with
      | none => rw [hrest] at h; cases h
      | some bs =>
        rw [hrest] at h
        cases h
        exact List.Forall₂.cons hfa (ih hrest)

theorem mapMOpt_isSome {f : α → Option β} {l : List α}
    (h : ∀ a ∈ l, (f a).isSome = true) : (mapMOpt f l).isSome = true := by
  induction l with
  | nil => rfl
  | cons a l ih =>
    unfold mapMOpt
    cases hfa : f a with
    | none =>
      have := h a (List.mem_cons_self a l)
      rw [hfa] at this
      cases this
    | some b =>
      have hrest := ih fun a ha => h a (List.mem_cons_of_mem _ ha)
      cases hl : mapMOpt f l with
      | none => rw [hl] at hrest; cases hrest
      | some bs => rfl

theorem sweepLoop_all {l : List FsFile}
    (h : ∀ f ∈ l, f.present = true ∧ f.removable = true) : sweepLoop l = (l, false) := by
  induction l with
  | nil => rfl
  | cons f rest ih =>
    have hf := h f (List.mem_cons_self f rest)
    have hr := ih fun g hg => h g (List.mem_cons_of_mem _ hg)
    unfold sweepLoop
    rw [if_pos hf.1, if_pos hf.2, hr]

/-- Claim C1 is false on the code: both engines substitute keys cumulatively
against already-substituted text, so for the field map `A` to the `B` token
and `B` to `X`, applied to a paragraph `{{A}}{{B}}`, the rendered text is
`XX`, not the `{{B}}X` the claim requires. -/
theorem claim1_counterexample :
    processParagraphRunLocal [(chars "A", chars "{{B}}"), (chars "B", chars "X")]
      [chars "{{A}}{{B}}"] = [chars "XX"] ∧
    collapsePara [(chars "{{A}}", chars "{{B}}"), (chars "{{B}}", chars "X")]
      [chars "{{A}}{{B}}"] = some [chars "XX"] ∧
    ([chars "XX"] : Para) ≠ [chars "{{B}}X"] := by
  refine ⟨by decide, by decide, by decide⟩

/-- Claim C1 amended: substitution does cascade across keys in a single pass.
Each key of the field map is replaced against the text as already modified
by the earlier keys of the same pass (the key loops fold over the evolving
text), so a key's replacement value can itself be matched and re-substituted
by a later key; for the field map of the claim both engines render
`{{A}}{{B}}` as `XX`. -/
theorem claim1_amended :
    (∀ (kv : List Char × List Char) (rest : FieldMap) (t : List Char),
      applyReplacements (kv :: rest) t =
        applyReplacements rest (if isSubstrOf kv.1 t then pyReplace t kv.1 kv.2 else t)) ∧
    (∀ (kv : List Char × List Char) (rest : FieldMap) (t : Run),
      runLocalRun (kv :: rest) t =
        runLocalRun rest
          (if isSubstrOf (placeholderOf kv.1) t then pyReplace t (placeholderOf kv.1) kv.2
           else t)) ∧
    processParagraphRunLocal [(chars "A", chars "{{B}}"), (chars "B", chars "X")]
      [chars "{{A}}{{B}}"] = [chars "XX"] ∧
    collapsePara [(chars "{{A}}", chars "{{B}}"), (chars "{{B}}", chars "X")]
      [chars "{{A}}{{B}}"] = some [chars "XX"] :=
  ⟨fun _ _ _ => rfl, fun _ _ _ => rfl, by decide, by decide⟩

/-- Claim C2 is false for the certificate path: `generate_certificate` calls
`convert` with no surrounding try/except, so a conversion failure after the
substituted document exists propagates to the caller as an error instead of
a success-with-warning. -/
theorem claim2_counterexample :
    generate_certificate { paragraphs := [], tables := [] }
      (chars "N") (chars "P") (chars "D") false =
      Except.error "PDF conversion failed" := rfl

/-- Claim C2 amended: for `generate_document` (every letter kind), a PDF
conversion failure after the DOCX was produced does not fail the operation:
it returns success with the rendered document, no PDF, and the warning
string; with a working converter it returns success with the PDF and no
warning.  The certificate path, by contrast, does not catch conversion
failure (see the counterexample). -/
theorem claim2_amended :
    ∀ (doc : DocM) (data : FieldMap),
      generate_document (some doc) data false =
        Except.ok { rendered := generateDocumentSub data doc, pdfProduced := false,
                    warning := some "PDF conversion failed, only DOCX is available" } ∧
      generate_document (some doc) data true =
        Except.ok { rendered := generateDocumentSub data doc, pdfProduced := true,
                    warning := none } :=
  fun _ _ => ⟨rfl, rfl⟩

/-- Claim C3 is false in its middle part: the try/except of
`delete_old_files` wraps the entire deletion loop, so a deletion failure on
one file (here the 41st-newest of 42) is caught but aborts the sweep — the
42nd file, present, removable and beyond the watermark, is not deleted. -/
theorem claim3_counterexample :
    List.drop 40
        (((List.range 42).map
            (fun i => ({ name := i, ctime := 100 - i, present := true,
                         removable := decide (i ≠ 40) } : FsFile))).insertionSort ctimeGe) =
      [{ name := 40, ctime := 60, present := true, removable := false },
       { name := 41, ctime := 59, present := true, removable := true }] ∧
    delete_old_files
        ((List.range 42).map
          (fun i => ({ name := i, ctime := 100 - i, present := true,
                       removable := decide (i ≠ 40) } : FsFile))) = ([], true) := by
  refine ⟨by decide, by decide⟩

/-- Claim C3 amended: a deletion failure is caught and logged by the handler
wrapping the whole sweep and never propagates (the sweep is a total
function returning an error flag), and a file that disappeared between
listing and the `isfile` check is skipped with the sweep continuing; but a
genuine deletion failure (e.g. a locked file) aborts the processing and
deletion of all remaining files of that sweep, because the except clause
wraps the entire loop rather than each file. -/
theorem claim3_amended :
    (∀ (f : FsFile) (rest : List FsFile), f.present = false →
      sweepLoop (f :: rest) = sweepLoop rest) ∧
    (∀ (f : FsFile) (rest : List FsFile), f.present = true → f.removable = false →
      sweepLoop (f :: rest) = ([], true)) := by
  constructor
  · intro f rest h
    simp [sweepLoop, h]
  · intro f rest h1 h2
    simp [sweepLoop, h1, h2]

/-- Witness for the amended C3: a concrete disappeared file is skipped while
the sweep continues, and a concrete locked file aborts the sweep with the
error caught. -/
theorem claim3_witness :
    sweepLoop [{ name := 0, ctime := 5, present := false, removable := true },
               { name := 1, ctime := 4, present := true, removable := true }] =
      sweepLoop [{ name := 1, ctime := 4, present := true, removable := true }] ∧
    sweepLoop [{ name := 0, ctime := 5, present := true, removable := false },
               { name := 1, ctime := 4, present := true, removable := true }] = ([], true) :=
  ⟨claim3_amended.1 { name := 0, ctime := 5, present := false, removable := true }
      [{ name := 1, ctime := 4, present := true, removable := true }] rfl,
   claim3_amended.2 { name := 0, ctime := 5, present := true, removable := false }
      [{ name := 1, ctime := 4, present := true, removable := true }] rfl rfl⟩

/-- Claim C4: the retention sweep orders the files by creation time newest
first, keeps the first 40 and deletes the rest; with 46 files of pairwise
distinct creation times, all present and removable, no error occurs,
exactly 6 files are deleted, each deleted file is from the listing, and
every deleted file is strictly older than every retained file. -/
theorem claim4_retention :
    ∀ files : List FsFile, files.length = 46 →
      List.Pairwise (fun a b => a.ctime ≠ b.ctime) files →
      (∀ f ∈ files, f.present = true ∧ f.removable = true) →
      (delete_old_files files).2 = false ∧
      (delete_old_files files).1.length = 6 ∧
      (∀ f ∈ (delete_old_files files).1, f ∈ files) ∧
      (∀ f ∈ (delete_old_files files).1, ∀ g ∈ files,
        g ∉ (delete_old_files files).1 → f.ctime < g.ctime) := by
  intro files hlen hdist hok
  have hperm : (files.insertionSort ctimeGe).Perm files := List.perm_insertionSort _ files
  have hsort : List.Pairwise ctimeGe (files.insertionSort ctimeGe) :=
    List.sorted_insertionSort ctimeGe files
  have hmemsort : ∀ {f : FsFile}, f ∈ files.insertionSort ctimeGe ↔ f ∈ files :=
    fun {f} => hperm.mem_iff
  have hdall : ∀ f ∈ List.drop 40 (files.insertionSort ctimeGe),
      f.present = true ∧ f.removable = true :=
    fun f hf => hok f (hmemsort.mp (List.mem_of_mem_drop hf))
  have hsweep : sweepLoop (List.drop 40 (files.insertionSort ctimeGe)) =
      (List.drop 40 (files.insertionSort ctimeGe), false) := sweepLoop_all hdall
  have hdel : delete_old_files files = (List.drop 40 (files.insertionSort ctimeGe), false) := by
    unfold delete_old_files
    exact hsweep
  rw [hdel]
  have hslen : (files.insertionSort ctimeGe).length = 46 := hperm.length_eq.trans hlen
  refine ⟨rfl, ?_, ?_, ?_⟩
  · rw [List.length_drop, hslen]
  · exact fun f hf => hmemsort.mp (List.mem_of_mem_drop hf)
  · intro f hf g hg hgnot
    have hgsort : g ∈ files.insertionSort ctimeGe := hmemsort.mpr hg
    have hgtake : g ∈ List.take 40 (files.insertionSort ctimeGe) := by
      rcases List.mem_append.mp
        ((List.take_append_drop 40 (files.insertionSort ctimeGe)) ▸ hgsort) with h | h
      · exact h
      · exact absurd h hgnot
    have hsplit := List.pairwise_append.mp
      ((List.take_append_drop 40 (files.insertionSort ctimeGe)).symm ▸ hsort)
    have hle : f.ctime ≤ g.ctime := hsplit.2.2 g hgtake f hf
    have hdistsort : List.Pairwise (fun a b => a.ctime ≠ b.ctime)
        (files.insertionSort ctimeGe) :=
      (hperm.pairwise_iff (fun h => h.symm)).mpr hdist
    have hnesplit := List.pairwise_append.mp
      ((List.take_append_drop 40 (files.insertionSort ctimeGe)).symm ▸ hdistsort)
    have hne : g.ctime ≠ f.ctime := hnesplit.2.2 g hgtake f hf
    exact Nat.lt_of_le_of_ne hle (fun h => hne h.symm)

/-- Witness for C4: 46 files with creation times 0 to 45 trigger the sweep
with no error, six deletions, all taken from the listing. -/
theorem claim4_witness :
    (((List.range 46).map
        (fun i => ({ name := i, ctime := i, present := true, removable := true } : FsFile))).length = 46 ∧
      List.Pairwise (fun a b => a.ctime ≠ b.ctime)
        ((List.range 46).map
          (fun i => ({ name := i, ctime := i, present := true, removable := true } : FsFile)))) ∧
    (delete_old_files
        ((List.range 46).map
          (fun i => ({ name := i, ctime := i, present := true, removable := true } : FsFile)))).2 = false ∧
    (delete_old_files
        ((List.range 46).map
          (fun i => ({ name := i, ctime := i, present := true, removable := true } : FsFile)))).1.length = 6 :=
  ⟨⟨by decide, by decide⟩,
    (claim4_retention
      ((List.range 46).map
        (fun i => ({ name := i, ctime := i, present := true, removable := true } : FsFile)))
      (by decide) (by decide) (by decide)).1,
    (claim4_retention
      ((List.range 46).map
        (fun i => ({ name := i, ctime := i, present := true, removable := true } : FsFile)))
      (by decide) (by decide) (by decide)).2.1⟩

/-- Claim C5: under the run-local strategy, a key's token is replaced exactly
when it lies entirely within a single run's text: if the token occurs in no
run (in particular when it is split across adjacent runs), both the
body-paragraph loop and the table-cell loop leave every run unchanged and
raise no error; the body loop rewrites exactly the runs containing the
token, and so does the table loop as soon as some run contains it. -/
theorem claim5_run_granularity :
    ∀ (k v : List Char) (p : Para),
      ((∀ r ∈ p, isSubstrOf (placeholderOf k) r = false) →
        processParagraphRunLocal [(k, v)] p = p ∧ processParagraphTable [(k, v)] p = p) ∧
      processParagraphRunLocal [(k, v)] p =
        p.map (fun r =>
          if isSubstrOf (placeholderOf k) r then pyReplace r (placeholderOf k) v else r) ∧
      ((∃ r ∈ p, isSubstrOf (placeholderOf k) r = true) →
        processParagraphTable [(k, v)] p =
          p.map (fun r =>
            if isSubstrOf (placeholderOf k) r then pyReplace r (placeholderOf k) v else r)) := by
  intro k v p
  refine ⟨?_, ?_, ?_⟩
  · intro h
    constructor
    · unfold processParagraphRunLocal
      have h2 : ∀ r ∈ p, runLocalRun [(k, v)] r = id r := by
        intro r hr
        refine runLocalRun_id ?_
        intro kv hkv
        have hkv2 := List.mem_singleton.mp hkv
        subst hkv2
        simpa using h r hr
      rw [List.map_congr_left h2, List.map_id]
    · refine processParagraphTable_id ?_
      intro kv hkv r hr
      have hkv2 := List.mem_singleton.mp hkv
      subst hkv2
      simpa using h r hr
  · rfl
  · rintro ⟨r, hr, hsub⟩
    show (if isSubstrOf (placeholderOf k) (paraText p) then
        p.map (fun r =>
          if isSubstrOf (placeholderOf k) r then pyReplace r (placeholderOf k) v else r)
      else p) = _
    rw [if_pos (isSubstrOf_paraText_of_mem hr hsub)]

/-- Witness for C5: the token `NAME` in braces split across the runs of a
paragraph is left unsubstituted by both loops, and a token contained in a
single run is rewritten by the table loop. -/
theorem claim5_witness :
    (∀ r ∈ [chars "\x7b\x7bNA", chars "ME\x7d\x7d"],
      isSubstrOf (placeholderOf (chars "NAME")) r = false) ∧
    processParagraphRunLocal [(chars "NAME", chars "Bob")] [chars "\x7b\x7bNA", chars "ME\x7d\x7d"] =
      [chars "\x7b\x7bNA", chars "ME\x7d\x7d"] ∧
    processParagraphTable [(chars "NAME", chars "Bob")] [chars "\x7b\x7bNA", chars "ME\x7d\x7d"] =
      [chars "\x7b\x7bNA", chars "ME\x7d\x7d"] ∧
    processParagraphTable [(chars "A", chars "x")] [chars "{{A}}"] =
      [chars "{{A}}"].map (fun r =>
        if isSubstrOf (placeholderOf (chars "A")) r
        then pyReplace r (placeholderOf (chars "A")) (chars "x") else r) :=
  ⟨by decide,
   ((claim5_run_granularity (chars "NAME") (chars "Bob")
      [chars "\x7b\x7bNA", chars "ME\x7d\x7d"]).1 (by decide)).1,
   ((claim5_run_granularity (chars "NAME") (chars "Bob")
      [chars "\x7b\x7bNA", chars "ME\x7d\x7d"]).1 (by decide)).2,
   (claim5_run_granularity (chars "A") (chars "x") [chars "{{A}}"]).2.2
     ⟨chars "{{A}}", by decide, by decide⟩⟩

/-- Claim C6: whenever `replace_placeholders` completes, every paragraph —
top-level or inside a table cell — is related to its output paragraph by
`paraRel`: an unchanged concatenated text leaves the paragraph (runs and
structure) exactly as it was, and a changed text collapses the runs with
the first run carrying the fully substituted text, every other run emptied,
and the concatenated text equal to the substituted string. -/
theorem claim6_frame :
    ∀ (repl : FieldMap) (doc doc2 : DocM), replacePlaceholders repl doc = some doc2 →
      List.Forall₂ (paraRel repl) doc.paragraphs doc2.paragraphs ∧
      List.Forall₂ (List.Forall₂ (List.Forall₂ (List.Forall₂ (paraRel repl))))
        doc.tables doc2.tables := by
  intro repl doc doc2 h
  unfold replacePlaceholders at h
  cases hp : mapMOpt (collapsePara repl) doc.paragraphs with
  | none => rw [hp] at h; cases h
  | some ps =>
    rw [hp] at h
    cases ht : mapMOpt
        (fun tbl => mapMOpt (fun row => mapMOpt (mapMOpt (collapsePara repl)) row) tbl)
        doc.tables with
    | none => rw [ht] at h; cases h
    | some ts =>
      rw [ht] at h
      cases h
      constructor
      · exact (mapMOpt_forall₂ hp).imp (fun _ _ hab => collapsePara_paraRel hab)
      · refine (mapMOpt_forall₂ ht).imp (fun tbl tbl2 htbl => ?_)
        refine (mapMOpt_forall₂ htbl).imp (fun row row2 hrow => ?_)
        refine (mapMOpt_forall₂ hrow).imp (fun cell cell2 hcell => ?_)
        exact (mapMOpt_forall₂ hcell).imp (fun _ _ hpq => collapsePara_paraRel hpq)

/-- Witness for C6: a concrete document with one touched two-run body
paragraph, one untouched paragraph and one table-cell paragraph satisfies
the frame relation. -/
theorem claim6_witness :
    replacePlaceholders [(chars "{{A}}", chars "x")]
        { paragraphs := [[chars "{{A}}", chars "tail"], [chars "plain"]],
          tables := [[[[[chars "{{A}}"]]]]] } =
      some { paragraphs := [[chars "xtail", chars ""], [chars "plain"]],
             tables := [[[[[chars "x"]]]]] } ∧
    (List.Forall₂ (paraRel [(chars "{{A}}", chars "x")])
        [[chars "{{A}}", chars "tail"], [chars "plain"]]
        [[chars "xtail", chars ""], [chars "plain"]] ∧
      List.Forall₂ (List.Forall₂ (List.Forall₂ (List.Forall₂
          (paraRel [(chars "{{A}}", chars "x")]))))
        [[[[[chars "{{A}}"]]]]] [[[[[chars "x"]]]]]) :=
  ⟨by decide,
   claim6_frame [(chars "{{A}}", chars "x")]
     { paragraphs := [[chars "{{A}}", chars "tail"], [chars "plain"]],
       tables := [[[[[chars "{{A}}"]]]]] }
     { paragraphs := [[chars "xtail", chars ""], [chars "plain"]],
       tables := [[[[[chars "x"]]]]] }
     (by decide)⟩

/-- Claim C7 is false on the code.  Part one: with the field map `A` to the
empty string and `K` to `X`, the token of `K` occurs nowhere in the template
`{{{{A}}K}}`, yet substituting `A` creates it, so `K` changes the output and
the output depends on `K`'s value.  Part two: a key name containing braces
(`K}}{{J`) yields a placeholder that overlaps and deletes the literal
`{{K}}` text of a key absent from the map. -/
theorem claim7_counterexample :
    isSubstrOf (placeholderOf (chars "K")) (chars "{{{{A}}K}}") = false ∧
    processParagraphRunLocal [(chars "A", chars ""), (chars "K", chars "X")]
      [chars "{{{{A}}K}}"] = [chars "X"] ∧
    processParagraphRunLocal [(chars "A", chars ""), (chars "K", chars "Y")]
      [chars "{{{{A}}K}}"] = [chars "Y"] ∧
    collapsePara [(chars "{{A}}", chars ""), (chars "{{K}}", chars "X")]
      [chars "{{{{A}}K}}"] = some [chars "X"] ∧
    isSubstrOf (chars "{{K}}") (chars "{{K}}{{J}}") = true ∧
    processParagraphRunLocal [(chars "K\x7d\x7d\x7b\x7bJ", chars "")]
      [chars "{{K}}{{J}}"] = [chars ""] ∧
    isSubstrOf (chars "{{K}}") (chars "") = false := by
  refine ⟨by decide, by decide, by decide, by decide, by decide, by decide, by decide⟩

/-- Claim C7 amended: for a single-key field map whose token does not occur
in the paragraph's text, both engines leave the paragraph unchanged (so the
output is independent of the key's value and no error occurs); with several
keys, an earlier substitution can create a later key's token at the
junction with surrounding text, and a brace-containing key name can destroy
the literal token of a key absent from the map, so the original universal
claim fails. -/
theorem claim7_amended :
    ∀ (k v : List Char) (p : Para),
      isSubstrOf (placeholderOf k) (paraText p) = false →
      processParagraphRunLocal [(k, v)] p = p ∧
      processParagraphTable [(k, v)] p = p ∧
      collapsePara [(placeholderOf k, v)] p = some p := by
  intro k v p h
  have hall : ∀ kv ∈ [(k, v)], isSubstrOf (placeholderOf kv.1) (paraText p) = false := by
    intro kv hkv
    have hkv2 := List.mem_singleton.mp hkv
    subst hkv2
    simpa using h
  refine ⟨processParagraphRunLocal_id hall, processParagraphTable_id ?_, collapsePara_id ?_⟩
  · intro kv hkv r hr
    exact isSubstrOf_run_eq_false hr (hall kv hkv)
  · intro kv hkv
    have hkv2 := List.mem_singleton.mp hkv
    subst hkv2
    simpa using h

/-- Witness for the amended C7: a paragraph without the token of the single
key `NAME` is untouched by all three loops. -/
theorem claim7_witness :
    isSubstrOf (placeholderOf (chars "NAME")) (paraText [chars "hello ", chars "world"]) = false ∧
    processParagraphRunLocal [(chars "NAME", chars "x")] [chars "hello ", chars "world"] =
      [chars "hello ", chars "world"] ∧
    processParagraphTable [(chars "NAME", chars "x")] [chars "hello ", chars "world"] =
      [chars "hello ", chars "world"] ∧
    collapsePara [(placeholderOf (chars "NAME"), chars "x")] [chars "hello ", chars "world"] =
      some [chars "hello ", chars "world"] :=
  ⟨by decide,
   (claim7_amended (chars "NAME") (chars "x") [chars "hello ", chars "world"] (by decide)).1,
   (claim7_amended (chars "NAME") (chars "x") [chars "hello ", chars "world"] (by decide)).2.1,
   (claim7_amended (chars "NAME") (chars "x") [chars "hello ", chars "world"] (by decide)).2.2⟩

/-- Claim C8 is false on the code: with the field map `B` to `X` and `A` to
the empty string — values with no placeholder-shaped substring — rendering
the paragraph `{{{{A}}B}}` once yields `{{B}}` (substituting `A` creates a
new token at the junction), and rendering the result again with the same
map yields `X`, so the second pass changes the textual content, for both
engines. -/
theorem claim8_counterexample :
    processParagraphRunLocal [(chars "B", chars "X"), (chars "A", chars "")]
      [chars "{{{{A}}B}}"] = [chars "{{B}}"] ∧
    processParagraphRunLocal [(chars "B", chars "X"), (chars "A", chars "")]
      [chars "{{B}}"] = [chars "X"] ∧
    (chars "X") ≠ (chars "{{B}}") ∧
    collapsePara [(chars "{{B}}", chars "X"), (chars "{{A}}", chars "")]
      [chars "{{{{A}}B}}"] = some [chars "{{B}}"] ∧
    collapsePara [(chars "{{B}}", chars "X"), (chars "{{A}}", chars "")]
      [chars "{{B}}"] = some [chars "X"] ∧
    isSubstrOf (chars "\x7b\x7b") (chars "X") = false ∧
    isSubstrOf (chars "\x7d\x7d") (chars "X") = false ∧
    isSubstrOf (chars "\x7b\x7b") (chars "") = false := by
  refine ⟨by decide, by decide, by decide, by decide, by decide, by decide, by decide, by decide⟩

/-- Claim C8 amended: a second rendering is the identity provided no key's
token occurs in the once-rendered text (for the run-local engine, in the
once-rendered paragraph's concatenated text; for the paragraph-level
engine, no key occurs as a substring).  The claim's original hypothesis —
values free of placeholder-shaped substrings — is insufficient, because a
substitution can create a new token at the junction of a value and the
surrounding text, which the next pass then rewrites. -/
theorem claim8_amended :
    (∀ (data : FieldMap) (p : Para),
      (∀ kv ∈ data, isSubstrOf (placeholderOf kv.1) (paraText p) = false) →
      processParagraphRunLocal data p = p ∧ processParagraphTable data p = p) ∧
    (∀ (repl : FieldMap) (p : Para),
      (∀ kv ∈ repl, isSubstrOf kv.1 (paraText p) = false) →
      collapsePara repl p = some p) :=
  ⟨fun _ _ h =>
    ⟨processParagraphRunLocal_id h,
     processParagraphTable_id (fun kv hkv _ hr => isSubstrOf_run_eq_false hr (h kv hkv))⟩,
   fun _ _ h => collapsePara_id h⟩

/-- Witness for the amended C8: the once-rendered paragraph `x` of the map
sending `A` to `x` contains no token of the map, so the second pass leaves
it unchanged under both engines. -/
theorem claim8_witness :
    processParagraphRunLocal [(chars "A", chars "x")] [chars "{{A}}"] = [chars "x"] ∧
    (∀ kv ∈ [(chars "A", chars "x")],
      isSubstrOf (placeholderOf kv.1) (paraText [chars "x"]) = false) ∧
    processParagraphRunLocal [(chars "A", chars "x")] [chars "x"] = [chars "x"] ∧
    processParagraphTable [(chars "A", chars "x")] [chars "x"] = [chars "x"] ∧
    collapsePara [(chars "{{A}}", chars "x")] [chars "x"] = some [chars "x"] :=
  ⟨by decide, by decide,
   ((claim8_amended.1 [(chars "A", chars "x")] [chars "x"]) (by decide)).1,
   ((claim8_amended.1 [(chars "A", chars "x")] [chars "x"]) (by decide)).2,
   claim8_amended.2 [(chars "{{A}}", chars "x")] [chars "x"] (by decide)⟩

/-- Claim C9: `replace_placeholders` matches its replacement keys verbatim —
the resulting concatenated text of a paragraph is the plain substring
replacement of the raw key, with no brace wrapping and no token-shape
requirement; the certificate caller accordingly passes keys already of the
form of brace-wrapped names, and a bare key like `NAME` is replaced at
every raw occurrence. -/
theorem claim9_raw_keys :
    (∀ (k v : List Char) (p q : Para), collapsePara [(k, v)] p = some q →
      paraText q =
        (if isSubstrOf k (paraText p) then pyReplace (paraText p) k v else paraText p)) ∧
    (∀ (n pos d : List Char),
      (certificateReplacements n pos d).map Prod.fst =
        [chars "{{NAME}}", chars "{{POSITION}}", chars "{{DURATION}}"]) ∧
    collapsePara [(chars "NAME", chars "X")] [chars "aNAMEbNAMEc"] =
      some [chars "aXbXc"] := by
  refine ⟨?_, fun _ _ _ => rfl, by decide⟩
  intro k v p q h
  have hrel := collapsePara_paraRel h
  have happ : applyReplacements [(k, v)] (paraText p) =
      (if isSubstrOf k (paraText p) then pyReplace (paraText p) k v else paraText p) := rfl
  by_cases hc : applyReplacements [(k, v)] (paraText p) = paraText p
  · rw [hrel.1 hc, ← happ, hc]
  · obtain ⟨r, rest, hp, hq, hpt⟩ := hrel.2 hc
    rw [hpt, ← happ]

/-- Witness for C9: the raw-key replacement of `NAME` by `X` in
`aNAMEbNAMEc` rewrites both occurrences. -/
theorem claim9_witness :
    collapsePara [(chars "NAME", chars "X")] [chars "aNAMEbNAMEc"] = some [chars "aXbXc"] ∧
    paraText [chars "aXbXc"] =
      (if isSubstrOf (chars "NAME") (paraText [chars "aNAMEbNAMEc"])
       then pyReplace (paraText [chars "aNAMEbNAMEc"]) (chars "NAME") (chars "X")
       else paraText [chars "aNAMEbNAMEc"]) :=
  ⟨by decide,
   claim9_raw_keys.1 (chars "NAME") (chars "X") [chars "aNAMEbNAMEc"] [chars "aXbXc"]
     (by decide)⟩

/-- Claim C10: with a replacement map whose keys are all non-empty,
`replace_placeholders` never hits the `IndexError` of writing into the
first run of a run-less paragraph: a run-less paragraph has empty
concatenated text, which no non-empty key can change, so it stays in the
untouched branch, and the whole traversal always succeeds. -/
theorem claim10_no_index_error :
    ∀ repl : FieldMap, (∀ kv ∈ repl, kv.1 ≠ []) →
      collapsePara repl ([] : Para) = some [] ∧
      (∀ doc : DocM, (replacePlaceholders repl doc).isSome = true) := by
  intro repl h
  have hnil : collapsePara repl ([] : Para) = some [] := by
    refine collapsePara_id ?_
    intro kv hkv
    show isSubstrOf kv.1 [] = false
    exact isSubstrOf_nil_of_ne (h kv hkv)
  refine ⟨hnil, fun doc => ?_⟩
  have hpara : ∀ p : Para, (collapsePara repl p).isSome = true := by
    intro p
    cases p with
    | nil => rw [hnil]; rfl
    | cons r rest =>
      unfold collapsePara
      by_cases hc : applyReplacements repl (paraText (r :: rest)) = paraText (r :: rest)
      · rw [if_pos hc]; rfl
      · rw [if_neg hc]; rfl
  unfold replacePlaceholders
  have h1 : (mapMOpt (collapsePara repl) doc.paragraphs).isSome = true :=
    mapMOpt_isSome (fun p _ => hpara p)
  cases hp : mapMOpt (collapsePara repl) doc.paragraphs with
  | none => rw [hp] at h1; cases h1
  | some ps =>
    have h2 : (mapMOpt
        (fun tbl => mapMOpt (fun row => mapMOpt (mapMOpt (collapsePara repl)) row) tbl)
        doc.tables).isSome = true :=
      mapMOpt_isSome (fun tbl _ =>
        mapMOpt_isSome (fun row _ =>
          mapMOpt_isSome (fun cell _ =>
            mapMOpt_isSome (fun p _ => hpara p))))
    cases ht : mapMOpt
        (fun tbl => mapMOpt (fun row => mapMOpt (mapMOpt (collapsePara repl)) row) tbl)
        doc.tables with
    | none => rw [ht] at h2; cases h2
    | some ts => rfl

/-- Witness for C10: the certificate replacement map (non-empty keys) on a
document with a run-less paragraph and a run-less table-cell paragraph
succeeds. -/
theorem claim10_witness :
    (∀ kv ∈ certificateReplacements (chars "N") (chars "P") (chars "D"), kv.1 ≠ []) ∧
    collapsePara (certificateReplacements (chars "N") (chars "P") (chars "D")) ([] : Para) =
      some [] ∧
    (replacePlaceholders (certificateReplacements (chars "N") (chars "P") (chars "D"))
        { paragraphs := [[]], tables := [[[[[]]]]] }).isSome = true :=
  ⟨by decide,
   (claim10_no_index_error (certificateReplacements (chars "N") (chars "P") (chars "D"))
     (by decide)).1,
   (claim10_no_index_error (certificateReplacements (chars "N") (chars "P") (chars "D"))
     (by decide)).2 { paragraphs := [[]], tables := [[[[[]]]]] }⟩
